import Mathlib

/-!
# Verification of the weekly-assistant content pipeline

Shallow embedding of the pure core of the `weekly-assistant` repository
(`src/index.js` and the image-cropping tool) in Lean 4, together with
theorems settling the specification claims.

JavaScript strings are modelled as Lean `String`s (sequences of Unicode
code points); JavaScript numbers appearing in the crop-geometry
computation are modelled as exact rationals (`ℚ`), with `Math.round`
modelled as `⌊q + 1/2⌋`.  Fallible operations return `Option`/`Except`.
-/

/-! ## Character-level modelling of the JavaScript string primitives -/

/-- Code points matched by the JavaScript regex class `\s` (and removed at
the ends by `String.prototype.trim`): tab, LF, VT, FF, CR, space, NBSP,
Ogham space, the U+2000–U+200A range, LS, PS, NNBSP, MMSP, ideographic
space and the BOM. -/
def jsWsCodes : List Nat :=
  [9, 10, 11, 12, 13, 32, 160, 5760,
   8192, 8193, 8194, 8195, 8196, 8197, 8198, 8199, 8200, 8201, 8202,
   8232, 8233, 8239, 8287, 12288, 65279]

/-- Whether a character is JavaScript whitespace (regex `\s`). -/
def jsWs (c : Char) : Bool := jsWsCodes.contains c.toNat

/-- The regex range `A-Z`. -/
def isAsciiUpperC (c : Char) : Bool := 65 ≤ c.toNat && c.toNat ≤ 90

/-- The regex range `a-z`. -/
def isAsciiLowerC (c : Char) : Bool := 97 ≤ c.toNat && c.toNat ≤ 122

/-- The regex range `0-9`. -/
def isAsciiDigitC (c : Char) : Bool := 48 ≤ c.toNat && c.toNat ≤ 57

/-- Model of `String.prototype.toLowerCase` on the characters reachable in
this code base (after filtering, only ASCII alphanumerics, `-` and `_`
remain): ASCII uppercase letters are shifted down by 32, everything else
is unchanged. -/
def jsToLower (c : Char) : Char :=
  if isAsciiUpperC c then Char.ofNat (c.toNat + 32) else c

/-- `String.prototype.trim` on a character list: drop JavaScript
whitespace from both ends. -/
def trimChars (l : List Char) : List Char :=
  ((l.dropWhile jsWs).reverse.dropWhile jsWs).reverse

/-- `String.prototype.trim`. -/
def jsTrimS (s : String) : String := ⟨trimChars s.data⟩

/-- `s.replace(/X+/g, r)` for a character class `p`: every maximal run of
characters satisfying `p` is replaced by the single character `r`. -/
def replaceRuns (p : Char → Bool) (r : Char) : List Char → List Char
  | [] => []
  | [c] => if p c then [r] else [c]
  | c :: d :: t =>
    if p c then
      if p d then replaceRuns p r (d :: t)
      else r :: replaceRuns p r (d :: t)
    else c :: replaceRuns p r (d :: t)

/-- Drop a single leading `'-'` (the `^-` alternative of
`replace(/^-|-$/g, "")`). -/
def dropLeadHyphen (l : List Char) : List Char :=
  match l with
  | [] => []
  | c :: t => if c = '-' then t else c :: t

/-- Drop a single trailing `'-'` (the `-$` alternative of
`replace(/^-|-$/g, "")`). -/
def dropTrailHyphen (l : List Char) : List Char :=
  (dropLeadHyphen l.reverse).reverse

/-- `s.replace(/^-|-$/g, "")`: with the `g` flag and no `m` flag this
removes exactly one hyphen at position 0 and one hyphen at the end. -/
def stripEdgeHyphens (l : List Char) : List Char :=
  dropTrailHyphen (dropLeadHyphen l)

/-- The character filter of `sanitizeFilename`:
`replace(/[^a-zA-Z0-9\s\-_]/g, "")` keeps ASCII alphanumerics, whitespace,
hyphen and underscore. -/
def keepChar (c : Char) : Bool :=
  isAsciiUpperC c || isAsciiLowerC c || isAsciiDigitC c || jsWs c ||
    c = '-' || c = '_'

/-- The pure pipeline inside `sanitizeFilename`
(image tool, src/unnamed/part_001 lines 230-243):
`trim → remove special chars → \s+ → "-" → -+ → "-" →
strip edge hyphens → toLowerCase → substring(0, 50)`. -/
def sanitizeCore (l : List Char) : List Char :=
  ((stripEdgeHyphens
      (replaceRuns (fun c => c = '-') '-'
        (replaceRuns jsWs '-'
          ((trimChars l).filter keepChar)))).map jsToLower).take 50

/-- `sanitizeFilename` from the image tool.  The argument is `none` for a
non-string (or missing) input; the string `""` is the only falsy string,
so both map to the `"untitled"` fallback. -/
def sanitizeFilename (s : Option String) : String :=
  match s with
  | none => "untitled"
  | some s => if s = "" then "untitled" else ⟨sanitizeCore s.data⟩

/-- The character set of sanitizer outputs: lowercase ASCII letters,
digits, hyphen and underscore. -/
def allowedFinal (c : Char) : Bool :=
  isAsciiLowerC c || isAsciiDigitC c || c = '-' || c = '_'

/-- No two adjacent hyphens (the state after hyphen runs were collapsed). -/
def noTwoHyphens (l : List Char) : Prop :=
  List.Chain' (fun a b => ¬(a = '-' ∧ b = '-')) l

/-- The character that can appear in an intermediate sanitizer state after
whitespace has been replaced by hyphens. -/
def preLowerChar (c : Char) : Bool :=
  isAsciiUpperC c || isAsciiLowerC c || isAsciiDigitC c || c = '-' || c = '_'

/-! ## Models of the async orchestration (src/index.js) -/

/-- Errors surfaced through the Node-style callbacks of `index.js`. -/
inductive TaskError where
  | httpStatus (code : Nat) (url : String)
  | network (msg : String)
  | render (msg : String)
  | fileWrite (msg : String)
  | invalidInput
deriving DecidableEq

/-- Model of `async.map(coll, iteratee, callback)`: every task is
launched, and if some task calls back with an error the final callback
receives that error (in the real scheduler the first error to complete;
in this sequential model the first in list order) and no result list;
only when every task succeeds does the callback receive the full result
list in input order. -/
def asyncMapModel {α : Type} : List (Except TaskError α) → Except TaskError (List α)
  | [] => .ok []
  | o :: t => do
    let a ← o
    let l ← asyncMapModel t
    pure (a :: l)

/-- `parseUrl` (src/index.js lines 182-189):
`async.parallel([getScreenshot, getContentAndWriteToFile], callback)`.
Both sub-tasks run; a failure of either is delivered to the callback,
otherwise the two success messages are delivered as a two-element
array.  The sub-task outcomes are the arguments. -/
def parseUrl {α : Type} (screenshotOutcome contentOutcome : Except TaskError α) :
    Except TaskError (List α) :=
  match screenshotOutcome, contentOutcome with
  | .error e, _ => .error e
  | .ok _, .error e => .error e
  | .ok a, .ok b => .ok [a, b]

/-- `parseSites` (src/index.js lines 198-203): rejects an empty site
list, otherwise `async.map`s the per-site task over it.  The per-site
task is abstracted as a function from URL to outcome. -/
def parseSites (sites : List String)
    (task : String → Except TaskError (List String)) :
    Except TaskError (List (List String)) :=
  if sites.isEmpty then .error .invalidInput
  else asyncMapModel (sites.map task)

/-- `main` (src/index.js lines 209-235): `process.exit(1)` when the
batch callback receives an error, normal termination (exit code 0)
otherwise. -/
def mainExitCode (sites : List String)
    (task : String → Except TaskError (List String)) : Nat :=
  match parseSites sites task with
  | .error _ => 1
  | .ok _ => 0

/-- Concrete per-site task for the C1 counterexample: the middle URL of
the batch fails with HTTP 404, the others succeed. -/
def c1Task : String → Except TaskError (List String) :=
  fun u =>
    if u = "http://b.example" then .error (.httpStatus 404 u)
    else .ok [u ++ " ok"]

/-! ## Crop geometry (image tool, src/unnamed/part_001 lines 316-346) -/

/-- `Math.round`: JavaScript rounds half up; on the exact rationals
arising here this is `⌊q + 1/2⌋`. -/
def jsRound (q : ℚ) : ℤ := ⌊q + 1/2⌋

/-- The crop rectangle computed inside `cropImageFromUrl`. -/
structure CropGeometry where
  cropWidth : ℤ
  cropHeight : ℤ
  cropX : ℤ
  cropY : ℤ
deriving DecidableEq

/-- `config.outputWidth` (image tool configuration object). -/
def outputWidth : ℕ := 400

/-- `config.outputHeight` (image tool configuration object). -/
def outputHeight : ℕ := 200

/-- The crop-geometry computation inside `cropImageFromUrl`
(src/unnamed/part_001 lines 323-341), with JavaScript numbers modelled
as exact rationals: `targetRatio = outputWidth/outputHeight`,
`imageRatio = width/height`; a source wider than the target ratio keeps
full height and crops a horizontally centred `round(height*targetRatio)`
wide band, otherwise it keeps full width and crops a vertically centred
`round(width/targetRatio)` tall band. -/
def computeCropGeometry (width height : ℕ) : CropGeometry :=
  let targetRatio : ℚ := (outputWidth : ℚ) / (outputHeight : ℚ)
  let imageRatio : ℚ := (width : ℚ) / (height : ℚ)
  if imageRatio > targetRatio then
    let cropHeight : ℤ := height
    let cropWidth : ℤ := jsRound ((height : ℚ) * targetRatio)
    { cropWidth := cropWidth, cropHeight := cropHeight,
      cropX := jsRound (((width : ℚ) - (cropWidth : ℚ)) / 2), cropY := 0 }
  else
    let cropWidth : ℤ := width
    let cropHeight : ℤ := jsRound ((width : ℚ) / targetRatio)
    { cropWidth := cropWidth, cropHeight := cropHeight,
      cropX := 0, cropY := jsRound (((height : ℚ) - (cropHeight : ℚ)) / 2) }

/-! ## Content extraction and formatting (`getContent`, src/index.js 104-138) -/

/-- JavaScript `||` on strings: the empty string is the only falsy
string. -/
def jsOrS (a b : String) : String := if a = "" then b else a

/-- JavaScript `||` where the left operand is `undefined` (`none`) or a
string: both `undefined` and `""` fall through to the right operand. -/
def jsOrO (a : Option String) (b : String) : String :=
  match a with
  | none => b
  | some s => if s = "" then b else s

/-- The query results `getContent` reads from the parsed document (the
external cheerio collaborator): the concatenated text of `<title>`
(`""` when no title element exists) and the `content` attributes of
`meta[name=description]` and `meta[property=og:description]` (`none`
when the element or its attribute is absent, `some ""` when the
attribute is present but empty). -/
structure PageDoc where
  titleText : String
  metaDescription : Option String
  ogDescription : Option String

/-- `$("title").text().trim() || "No title found"`. -/
def extractedTitle (d : PageDoc) : String :=
  jsOrS (jsTrimS d.titleText) "No title found"

/-- `$('meta[name="description"]').attr('content') ||
$('meta[property="og:description"]').attr('content') ||
"No description found"`. -/
def extractedDescription (d : PageDoc) : String :=
  jsOrO d.metaDescription (jsOrO d.ogDescription "No description found")

/-- The `basicFormat` block of `getContent`. -/
def basicFormat (title description sitename : String) : String :=
  "Title: " ++ title ++ "\n\nDescription: " ++ description ++ "\n\nURL: " ++
    sitename ++ "\n\n"

/-- `s.indexOf(pat) !== -1`: substring containment. -/
def containsSub (pat : List Char) : List Char → Bool
  | [] => pat.isPrefixOf []
  | c :: cs => pat.isPrefixOf (c :: cs) || containsSub pat cs

/-- `title.split("|")[0]`: the segment before the first `'|'`. -/
def beforeFirstBar (title : String) : String :=
  ⟨title.data.takeWhile (fun c => c ≠ '|')⟩

/-- The `fullFormat` block of `getContent` (src/index.js lines 126-131):
URLs containing the `"buscandriu"` marker get an HTML list item built
from the title truncated at the first `'|'` and trimmed; every other URL
gets the generic anchor-plus-description block. -/
def fullFormatFor (title description sitename : String) : String :=
  if containsSub "buscandriu".data sitename.data then
    "Buscandriu: <li style=\"text-align: left;\">" ++
      jsTrimS (beforeFirstBar title) ++
      " <a href=\"" ++ sitename ++
      "\" target=\"_blank\"><strong>[link]</strong></a></li>"
  else
    "Full format: <a href=\"" ++ sitename ++ "\" target=\"_blank\"><strong>" ++
      title ++ "</strong></a>: " ++ description ++ " <a href=\"" ++ sitename ++
      "\" target=\"_blank\"><strong>[link]</strong></a><br /><br />"

/-- The generic (non-buscandriu) block of `getContent`, named separately
so the C6 statement can refer to it. -/
def genericBlock (title description sitename : String) : String :=
  "Full format: <a href=\"" ++ sitename ++ "\" target=\"_blank\"><strong>" ++
    title ++ "</strong></a>: " ++ description ++ " <a href=\"" ++ sitename ++
    "\" target=\"_blank\"><strong>[link]</strong></a><br /><br />"

/-- The content string delivered by `getContent`'s callback on a 200
response: basic block followed by the site-formatted block. -/
def getContentBody (d : PageDoc) (sitename : String) : String :=
  basicFormat (extractedTitle d) (extractedDescription d) sitename ++
    fullFormatFor (extractedTitle d) (extractedDescription d) sitename

/-- An HTML list item with a trailing "[link]" anchor, written from the
spec's words for comparison with the code's buscandriu branch. -/
def liLinkItem (cleanTitle sitename : String) : String :=
  "<li style=\"text-align: left;\">" ++ cleanTitle ++ " <a href=\"" ++
    sitename ++ "\" target=\"_blank\"><strong>[link]</strong></a></li>"

/-! ## `cleanName` (src/index.js lines 38-50) -/

/-- `s.replace("www.", "")`: remove the first occurrence of the
substring `"www."` anywhere in the string. -/
def dropFirstWWW : List Char → List Char
  | 'w' :: 'w' :: 'w' :: '.' :: t => t
  | c :: cs => c :: dropFirstWWW cs
  | [] => []

/-- Prepend a character to the first piece of a split result. -/
def consFirst (c : Char) : List (List Char) → List (List Char)
  | [] => [[c]]
  | h :: t => (c :: h) :: t

/-- `s.split("//")`: split on the two-character separator, scanning left
to right without overlap. -/
def splitOnDSlash : List Char → List (List Char)
  | [] => [[]]
  | '/' :: '/' :: t => [] :: splitOnDSlash t
  | c :: cs => consFirst c (splitOnDSlash cs)

/-- The `sluggin` slugifier (an external npm package), modelled from the
mock the repository's own test suite substitutes for it
(src/unnamed/part_003 lines 30-35):
`text.toLowerCase().replace(/[^a-z0-9]+/g, '-').replace(/^-+|-+$/g, '')`. -/
def slugginChars (l : List Char) : List Char :=
  (((replaceRuns (fun c => !(isAsciiLowerC c || isAsciiDigitC c)) '-'
      (l.map jsToLower)).dropWhile (fun c => c = '-')).reverse.dropWhile
        (fun c => c = '-')).reverse

/-- The `sluggin` slugifier on strings. -/
def sluggin (s : String) : String := ⟨slugginChars s.data⟩

/-- `cleanName` (src/index.js lines 38-50).  The argument is `none` for
a non-string input.  Node's legacy `url.parse(uri).href` is modelled as
the input string itself, which is faithful for the inputs at issue: the
legacy parser echoes strings it cannot interpret and leaves
already-normalised `https://…` URLs unchanged.  When the split on
`"//"` has no second component, the code calls `sluggin(undefined)`,
which throws and lands in the `catch`, producing `"unknown-site"`. -/
def cleanName (uri : Option String) : String :=
  match uri with
  | none => "unknown-site"
  | some s =>
    if s = "" then "unknown-site"
    else
      match (splitOnDSlash (dropFirstWWW s.data)).get? 1 with
      | none => "unknown-site"
      | some h => sluggin ⟨h⟩

/-! ## Background-image extraction and URL resolution
(image tool, src/unnamed/part_001 lines 374-384 and 430-457) -/

/-- Case-insensitive literal match (the regex `/i` flag): consume `pat`
from the front of `s`, comparing characters through `jsToLower`, and
return the rest. -/
def matchCI : List Char → List Char → Option (List Char)
  | [], s => some s
  | _ :: _, [] => none
  | p :: ps, c :: cs =>
    if jsToLower c = jsToLower p then matchCI ps cs else none

/-- Consume one expected character. -/
def expectChar (c : Char) : List Char → Option (List Char)
  | d :: t => if d = c then some t else none
  | [] => none

/-- `\s*`: skip whitespace. -/
def skipWs (s : List Char) : List Char := s.dropWhile jsWs

/-- A single optional quote (the regex piece matching one of the two
quote characters, or nothing). -/
def skipOptQuote : List Char → List Char
  | [] => []
  | c :: t => if c = '\'' ∨ c = '"' then t else c :: t

/-- The capture class of the regex: any character except a quote or a
closing parenthesis. -/
def bgUrlChar (c : Char) : Bool := !(c = '\'' || c = '"' || c = ')')

/-- The part of the regex after `url\s*\(`: optional quote, the
greedy non-empty capture, optional quote, whitespace, and the closing
parenthesis; returns the captured group. -/
def parseBgTail (s : List Char) : Option (List Char) :=
  let s1 := skipWs s
  let s2 := skipOptQuote s1
  let cap := s2.takeWhile bgUrlChar
  if cap.isEmpty then none
  else
    let r1 := s2.drop cap.length
    let r2 := skipOptQuote r1
    let r3 := skipWs r2
    match expectChar ')' r3 with
    | some _ => some cap
    | none => none

/-- One attempt of the `extractBackgroundImageUrl` regex
`background-image\s*:\s*url\s*\(\s*[quote]?([^quote\)]+)[quote]?\s*\)`
(case-insensitive) at the head of the list. -/
def parseBgAt (s : List Char) : Option (List Char) := do
  let s ← matchCI "background-image".data s
  let s ← expectChar ':' (skipWs s)
  let s ← matchCI "url".data (skipWs s)
  let s ← expectChar '(' (skipWs s)
  parseBgTail s

/-- The regex search: try the pattern at every position. -/
def scanBg : List Char → Option (List Char)
  | [] => none
  | c :: cs =>
    match parseBgAt (c :: cs) with
    | some cap => some cap
    | none => scanBg cs

/-- `extractBackgroundImageUrl` (src/unnamed/part_001 lines 374-384):
`null` for a falsy style string, otherwise the regex's first captured
group, trimmed; `null` when nothing matches. -/
def extractBackgroundImageUrl (styleString : String) : Option String :=
  if styleString = "" then none
  else (scanBg styleString.data).map (fun cap => jsTrimS ⟨cap⟩)

/-- Everything after the first `"//"`. -/
def afterDSlash : List Char → List Char
  | '/' :: '/' :: t => t
  | _ :: cs => afterDSlash cs
  | [] => []

/-- The `protocol` component of Node's legacy `url.parse`, modelled for
scheme-ful page URLs: the scheme up to and including the first `':'`,
lowercased. -/
def nodeProtocol (u : List Char) : List Char :=
  (u.takeWhile (fun c => c ≠ ':')).map jsToLower ++ [':']

/-- The `host` component (including any port) of legacy `url.parse`,
modelled for scheme-ful page URLs: after `"//"`, up to the first `'/'`,
`'?'` or `'#'`, lowercased. -/
def nodeHost (u : List Char) : List Char :=
  ((afterDSlash u).takeWhile
    (fun c => ¬(c = '/' ∨ c = '?' ∨ c = '#'))).map jsToLower

/-- The `hostname` component of legacy `url.parse` (the host without a
port); `none` models the `null` the legacy parser yields for strings
without a `"//"` host marker. -/
def nodeHostname (u : String) : Option String :=
  if containsSub ['/', '/'] u.data then
    some ⟨((afterDSlash u.data).takeWhile
      (fun c => ¬(c = '/' ∨ c = '?' ∨ c = '#' ∨ c = ':'))).map jsToLower⟩
  else none

/-- Node's `url.resolve(base, rel)` for a path-relative `rel` with no
`.`/`..`/query/fragment parts, modelled from the `url` collaborator's
behaviour on the simple inputs this code resolves: everything after the
last `'/'` of the base path is replaced by `rel`; a base with an empty
path gets `"/"` inserted. -/
def nodeResolve (base rel : List Char) : List Char :=
  let a := afterDSlash base
  let host := a.takeWhile (fun c => ¬(c = '/' ∨ c = '?' ∨ c = '#'))
  let path := a.drop host.length
  let dir :=
    if path.contains '/' then
      (path.reverse.dropWhile (fun c => c ≠ '/')).reverse
    else ['/']
  base.take (base.length - a.length) ++ host ++ dir ++ rel

/-- The URL-resolution chain applied to each discovered image URL inside
`findImagesInPage` (src/unnamed/part_001 lines 436-443):
protocol-relative URLs get `"https:"` prepended, root-relative URLs are
joined to `protocol + "//" + host` of the page, anything else not
starting with `"http"` is resolved against the page URL with
`url.resolve`, and absolute `http…` URLs pass through unchanged. -/
def resolveCandidateUrl (pageUrl imageUrl : String) : String :=
  if List.isPrefixOf "//".data imageUrl.data then "https:" ++ imageUrl
  else if List.isPrefixOf "/".data imageUrl.data then
    ⟨nodeProtocol pageUrl.data⟩ ++ "//" ++ ⟨nodeHost pageUrl.data⟩ ++ imageUrl
  else if List.isPrefixOf "http".data imageUrl.data then imageUrl
  else ⟨nodeResolve pageUrl.data imageUrl.data⟩

/-! ## `generateFilename` (image tool, src/unnamed/part_001 lines 252-282) -/

/-- `hostname.replace(/^www\./, "")`: strip one anchored leading
`"www."` (unlike `cleanName`, which removes the first occurrence
anywhere). -/
def dropLeadingWWW (h : String) : String :=
  if List.isPrefixOf "www.".data h.data then ⟨h.data.drop 4⟩ else h

/-- `generateFilename`.  `pageTitle`/`pageUrl` are `none` for non-string
arguments; legacy `url.parse` throws on a non-string argument, landing
in the `catch` that returns the `"cropped_image_"` fallback.
`timestamp` stands for `Date.now()`.  A falsy (`null` or `""`)
`parsedPage.hostname` becomes `"unknown"`; a falsy `pageTitle` or a
whitespace-only `pageTitle.trim()` becomes `"untitled"`; empty sanitized
parts are re-defaulted. -/
def generateFilename (pageTitle : Option String) (pageUrl : Option String)
    (timestamp : Nat) : String :=
  match pageUrl with
  | none => "cropped_image_" ++ toString timestamp ++ ".jpg"
  | some u =>
    let hostname :=
      match nodeHostname u with
      | none => "unknown"
      | some h => if h = "" then "unknown" else h
    let cleanHostname := sanitizeFilename (some (dropLeadingWWW hostname))
    let titlePart :=
      match pageTitle with
      | none => "untitled"
      | some t =>
        if t = "" ∨ jsTrimS t = "" then "untitled"
        else sanitizeFilename (some t)
    let cleanHostname2 := if cleanHostname = "" then "unknown" else cleanHostname
    let titlePart2 := if titlePart = "" then "untitled" else titlePart
    cleanHostname2 ++ "_" ++ titlePart2 ++ "_" ++ toString timestamp ++ ".jpg"

/-! ## Basic character lemmas -/

theorem char_toNat_inj {a b : Char} (h : a.toNat = b.toNat) : a = b := by
  have := congrArg Char.ofNat h
  rwa [Char.ofNat_toNat, Char.ofNat_toNat] at this

theorem toNat_ofNat_valid {n : Nat} (h : n < 55296) :
    (Char.ofNat n).toNat = n := by
  rw [Char.ofNat, dif_pos (Or.inl h)]
  rfl

theorem char_eq_iff_toNat {a b : Char} : a = b ↔ a.toNat = b.toNat :=
  ⟨fun h => h ▸ rfl, char_toNat_inj⟩

theorem jsWs_codes {c : Char} (h : jsWs c = true) : c.toNat ∈ jsWsCodes := by
  simpa [jsWs] using h

theorem jsWs_toNat {c : Char} (h : jsWs c = true) :
    c.toNat = 9 ∨ c.toNat = 10 ∨ c.toNat = 11 ∨ c.toNat = 12 ∨
    c.toNat = 13 ∨ c.toNat = 32 ∨ c.toNat = 160 ∨ c.toNat = 5760 ∨
    c.toNat = 8192 ∨ c.toNat = 8193 ∨ c.toNat = 8194 ∨ c.toNat = 8195 ∨
    c.toNat = 8196 ∨ c.toNat = 8197 ∨ c.toNat = 8198 ∨ c.toNat = 8199 ∨
    c.toNat = 8200 ∨ c.toNat = 8201 ∨ c.toNat = 8202 ∨ c.toNat = 8232 ∨
    c.toNat = 8233 ∨ c.toNat = 8239 ∨ c.toNat = 8287 ∨ c.toNat = 12288 ∨
    c.toNat = 65279 := by
  have := jsWs_codes h
  simpa [jsWsCodes] using this

theorem hyphen_toNat : ('-' : Char).toNat = 45 := rfl

theorem underscore_toNat : ('_' : Char).toNat = 95 := rfl

theorem allowedFinal_toNat {c : Char} (h : allowedFinal c = true) :
    (97 ≤ c.toNat ∧ c.toNat ≤ 122) ∨ (48 ≤ c.toNat ∧ c.toNat ≤ 57) ∨
    c.toNat = 45 ∨ c.toNat = 95 := by
  simp only [allowedFinal, isAsciiLowerC, isAsciiDigitC, Bool.or_eq_true,
    Bool.and_eq_true, decide_eq_true_eq] at h
  rcases h with ((h | h) | h) | h
  · exact Or.inl h
  · exact Or.inr (Or.inl h)
  · exact Or.inr (Or.inr (Or.inl (h ▸ hyphen_toNat)))
  · exact Or.inr (Or.inr (Or.inr (h ▸ underscore_toNat)))

theorem allowedFinal_not_ws {c : Char} (h : allowedFinal c = true) :
    jsWs c = false := by
  by_contra hw
  have hw' : jsWs c = true := by
    cases hws : jsWs c
    · exact absurd hws hw
    · rfl
  have h1 := allowedFinal_toNat h
  have h2 := jsWs_toNat hw'
  omega

theorem allowedFinal_keep {c : Char} (h : allowedFinal c = true) :
    keepChar c = true := by
  simp only [allowedFinal, Bool.or_eq_true] at h
  simp only [keepChar, Bool.or_eq_true]
  tauto

theorem jsToLower_fixed {c : Char} (h : allowedFinal c = true) :
    jsToLower c = c := by
  have h1 := allowedFinal_toNat h
  have hn : isAsciiUpperC c = false := by
    simp only [isAsciiUpperC, Bool.and_eq_false_iff, Bool.not_eq_true,
      decide_eq_false_iff_not]
    omega
  simp [jsToLower, hn]

theorem jsToLower_allowed {c : Char}
    (h : (isAsciiUpperC c || isAsciiLowerC c || isAsciiDigitC c ||
      c = '-' || c = '_') = true) :
    allowedFinal (jsToLower c) = true := by
  by_cases hu : isAsciiUpperC c = true
  · have hr : 65 ≤ c.toNat ∧ c.toNat ≤ 90 := by
      simpa [isAsciiUpperC, Bool.and_eq_true, decide_eq_true_eq] using hu
    have hlt : c.toNat + 32 < 55296 := by omega
    have ht : (jsToLower c).toNat = c.toNat + 32 := by
      simp [jsToLower, hu, toNat_ofNat_valid hlt]
    simp only [allowedFinal, isAsciiLowerC, Bool.or_eq_true,
      Bool.and_eq_true, decide_eq_true_eq]
    exact Or.inl (Or.inl (Or.inl (by omega)))
  · have hid : jsToLower c = c := by simp [jsToLower, hu]
    rw [hid]
    simp only [Bool.or_eq_true] at h
    simp only [allowedFinal, Bool.or_eq_true]
    rcases h with (((h | h) | h) | h) | h
    · exact absurd h hu
    · exact Or.inl (Or.inl (Or.inl h))
    · exact Or.inl (Or.inl (Or.inr h))
    · exact Or.inl (Or.inr (by simp [h]))
    · exact Or.inr (by simp [h])

/-! ## Lemmas about `replaceRuns` -/

theorem replaceRuns_nil {p : Char → Bool} {r : Char} :
    replaceRuns p r [] = [] := rfl

theorem replaceRuns_cons_neg {p : Char → Bool} {r c : Char} {cs : List Char}
    (h : p c = false) : replaceRuns p r (c :: cs) = c :: replaceRuns p r cs := by
  cases cs with
  | nil => simp [replaceRuns, h]
  | cons d t => simp [replaceRuns, h]

theorem mem_replaceRuns {p : Char → Bool} {r : Char} :
    ∀ {l : List Char} {c : Char}, c ∈ replaceRuns p r l →
      c = r ∨ (c ∈ l ∧ p c = false)
  | [], c, h => by simp [replaceRuns] at h
  | [a], c, h => by
    by_cases hp : p a = true
    · simp [replaceRuns, hp] at h
      exact Or.inl h
    · simp only [Bool.not_eq_true] at hp
      simp [replaceRuns, hp] at h
      exact Or.inr ⟨by simp [h], by rw [h]; exact hp⟩
  | a :: d :: t, c, h => by
    by_cases hp : p a = true
    · by_cases hd : p d = true
      · simp only [replaceRuns, hp, hd, if_true] at h
        rcases mem_replaceRuns h with h1 | ⟨h1, h2⟩
        · exact Or.inl h1
        · exact Or.inr ⟨List.mem_cons_of_mem a h1, h2⟩
      · simp only [Bool.not_eq_true] at hd
        simp only [replaceRuns, hp, hd, if_true, Bool.false_eq_true,
          if_false, List.mem_cons] at h
        rcases h with h1 | h1
        · exact Or.inl h1
        · rcases mem_replaceRuns h1 with h2 | ⟨h2, h3⟩
          · exact Or.inl h2
          · exact Or.inr ⟨List.mem_cons_of_mem a h2, h3⟩
    · simp only [Bool.not_eq_true] at hp
      simp only [replaceRuns, hp, Bool.false_eq_true, if_false,
        List.mem_cons] at h
      rcases h with h1 | h1
      · exact Or.inr ⟨by simp [h1], h1 ▸ hp⟩
      · rcases mem_replaceRuns h1 with h2 | ⟨h2, h3⟩
        · exact Or.inl h2
        · exact Or.inr ⟨List.mem_cons_of_mem a h2, h3⟩

theorem chain_replaceRuns {p : Char → Bool} {r : Char} :
    ∀ {l : List Char},
      List.Chain' (fun a b => p a = false ∨ p b = false) (replaceRuns p r l)
  | [] => by simp [replaceRuns]
  | [a] => by
    by_cases hp : p a = true <;> simp [replaceRuns, hp]
  | a :: d :: t => by
    by_cases hp : p a = true
    · by_cases hd : p d = true
      · simpa [replaceRuns, hp, hd] using
          (chain_replaceRuns (l := d :: t))
      · simp only [Bool.not_eq_true] at hd
        simp only [replaceRuns, hp, hd, if_true, Bool.false_eq_true, if_false]
        rw [List.chain'_cons']
        refine ⟨?_, chain_replaceRuns (l := d :: t)⟩
        intro y _
        exact Or.inr (by rw [replaceRuns_cons_neg hd] at *; simp_all)
    · simp only [Bool.not_eq_true] at hp
      simp only [replaceRuns, hp, Bool.false_eq_true, if_false]
      rw [List.chain'_cons']
      exact ⟨fun y _ => Or.inl hp, chain_replaceRuns (l := d :: t)⟩

theorem replaceRuns_eq_self_of_not {p : Char → Bool} {r : Char} :
    ∀ {l : List Char}, (∀ c ∈ l, p c = false) → replaceRuns p r l = l
  | [], _ => rfl
  | [a], h => by simp [replaceRuns, h a (by simp)]
  | a :: d :: t, h => by
    have ha := h a (by simp)
    rw [replaceRuns_cons_neg ha]
    rw [replaceRuns_eq_self_of_not (fun c hc => h c (List.mem_cons_of_mem a hc))]

theorem replaceRuns_eq_self_of_single {p : Char → Bool} {r : Char} :
    ∀ {l : List Char}, (∀ c ∈ l, p c = true → c = r) →
      List.Chain' (fun a b => p a = false ∨ p b = false) l →
      replaceRuns p r l = l
  | [], _, _ => rfl
  | [a], hr, _ => by
    by_cases hp : p a = true
    · simp [replaceRuns, hp, (hr a (by simp) hp).symm]
    · simp only [Bool.not_eq_true] at hp
      simp [replaceRuns, hp]
  | a :: d :: t, hr, hc => by
    have hc2 : List.Chain' (fun a b => p a = false ∨ p b = false) (d :: t) :=
      hc.tail
    have hr2 : ∀ c ∈ d :: t, p c = true → c = r :=
      fun c hcm => hr c (List.mem_cons_of_mem a hcm)
    by_cases hp : p a = true
    · have hd : p d = false := by
        rcases (List.chain'_cons.mp hc).1 with h1 | h1
        · exact absurd hp (by simp [h1])
        · exact h1
      simp only [replaceRuns, hp, hd, if_true, Bool.false_eq_true, if_false]
      rw [replaceRuns_eq_self_of_single hr2 hc2, (hr a (by simp) hp).symm]
    · simp only [Bool.not_eq_true] at hp
      rw [replaceRuns_cons_neg hp]
      rw [replaceRuns_eq_self_of_single hr2 hc2]

/-! ## Lemmas about the edge-hyphen stripping -/

theorem noTwoHyphens_reverse {l : List Char} (h : noTwoHyphens l) :
    noTwoHyphens l.reverse := by
  rw [noTwoHyphens, List.chain'_reverse]
  exact h.imp fun a b hab h2 => hab ⟨h2.2, h2.1⟩

theorem dropLeadHyphen_subset {l : List Char} {c : Char}
    (h : c ∈ dropLeadHyphen l) : c ∈ l := by
  cases l with
  | nil => simp [dropLeadHyphen] at h
  | cons a t =>
    by_cases ha : a = '-'
    · simp only [dropLeadHyphen, ha, if_true] at h
      exact List.mem_cons_of_mem a h
    · simpa [dropLeadHyphen, ha] using h

theorem dropLeadHyphen_noop {l : List Char}
    (h : ∀ c, l.head? = some c → c ≠ '-') : dropLeadHyphen l = l := by
  cases l with
  | nil => rfl
  | cons a t => simp [dropLeadHyphen, h a rfl]

theorem dropLeadHyphen_head {l : List Char} (hc : noTwoHyphens l) :
    ∀ c, (dropLeadHyphen l).head? = some c → c ≠ '-' := by
  intro c h
  cases l with
  | nil => simp [dropLeadHyphen] at h
  | cons a t =>
    by_cases ha : a = '-'
    · simp only [dropLeadHyphen, ha, if_true] at h
      have h2 := (List.chain'_cons'.mp hc).1
      intro hcontra
      exact h2 c h ⟨ha, hcontra⟩
    · simp only [dropLeadHyphen, ha, if_false, List.head?_cons,
        Option.some.injEq] at h
      exact h ▸ ha

theorem dropLeadHyphen_chain {l : List Char} (hc : noTwoHyphens l) :
    noTwoHyphens (dropLeadHyphen l) := by
  cases l with
  | nil => exact hc
  | cons a t =>
    by_cases ha : a = '-'
    · simp only [dropLeadHyphen, ha, if_true]
      exact hc.tail
    · simpa [dropLeadHyphen, ha] using hc

theorem dropLeadHyphen_getLast {l : List Char} {c : Char}
    (h : (dropLeadHyphen l).getLast? = some c) : l.getLast? = some c := by
  cases l with
  | nil => simp [dropLeadHyphen] at h
  | cons a t =>
    by_cases ha : a = '-'
    · simp only [dropLeadHyphen, ha, if_true] at h
      have ht : t ≠ [] := by
        intro he
        rw [he] at h
        simp at h
      rw [List.getLast?_eq_head?_reverse, List.reverse_cons,
        List.head?_append_of_ne_nil, ← List.getLast?_eq_head?_reverse]
      · exact h
      · simpa using ht
    · simpa [dropLeadHyphen, ha] using h

theorem dropTrailHyphen_subset {l : List Char} {c : Char}
    (h : c ∈ dropTrailHyphen l) : c ∈ l := by
  rw [dropTrailHyphen, List.mem_reverse] at h
  have := dropLeadHyphen_subset h
  rwa [List.mem_reverse] at this

theorem dropTrailHyphen_noop {l : List Char}
    (h : ∀ c, l.getLast? = some c → c ≠ '-') : dropTrailHyphen l = l := by
  rw [dropTrailHyphen, dropLeadHyphen_noop, List.reverse_reverse]
  intro c hr
  rw [List.head?_reverse] at hr
  exact h c hr

theorem dropTrailHyphen_getLast {l : List Char} (hc : noTwoHyphens l) :
    ∀ c, (dropTrailHyphen l).getLast? = some c → c ≠ '-' := by
  intro c h
  rw [dropTrailHyphen, List.getLast?_reverse] at h
  exact dropLeadHyphen_head (noTwoHyphens_reverse hc) c h

theorem dropTrailHyphen_head {l : List Char} {c : Char}
    (h : (dropTrailHyphen l).head? = some c) : l.head? = some c := by
  rw [dropTrailHyphen, List.head?_reverse] at h
  have := dropLeadHyphen_getLast h
  rwa [List.getLast?_reverse] at this

theorem dropTrailHyphen_chain {l : List Char} (hc : noTwoHyphens l) :
    noTwoHyphens (dropTrailHyphen l) := by
  rw [dropTrailHyphen]
  have h1 := dropLeadHyphen_chain (noTwoHyphens_reverse hc)
  rw [noTwoHyphens, List.chain'_reverse]
  exact h1.imp fun a b hab h2 => hab ⟨h2.2, h2.1⟩

theorem stripEdgeHyphens_subset {l : List Char} {c : Char}
    (h : c ∈ stripEdgeHyphens l) : c ∈ l :=
  dropLeadHyphen_subset (dropTrailHyphen_subset h)

theorem stripEdgeHyphens_head {l : List Char} (hc : noTwoHyphens l) :
    ∀ c, (stripEdgeHyphens l).head? = some c → c ≠ '-' := by
  intro c h
  exact dropLeadHyphen_head hc c (dropTrailHyphen_head h)

theorem stripEdgeHyphens_getLast {l : List Char} (hc : noTwoHyphens l) :
    ∀ c, (stripEdgeHyphens l).getLast? = some c → c ≠ '-' :=
  dropTrailHyphen_getLast (dropLeadHyphen_chain hc)

theorem stripEdgeHyphens_chain {l : List Char} (hc : noTwoHyphens l) :
    noTwoHyphens (stripEdgeHyphens l) :=
  dropTrailHyphen_chain (dropLeadHyphen_chain hc)

theorem stripEdgeHyphens_noop {l : List Char}
    (hh : ∀ c, l.head? = some c → c ≠ '-')
    (hl : ∀ c, l.getLast? = some c → c ≠ '-') :
    stripEdgeHyphens l = l := by
  rw [stripEdgeHyphens, dropLeadHyphen_noop hh, dropTrailHyphen_noop hl]

/-! ## Invariants of `sanitizeCore` -/

theorem jsToLower_eq_hyphen_iff (c : Char) : jsToLower c = '-' ↔ c = '-' := by
  by_cases hu : isAsciiUpperC c = true
  · have hr : 65 ≤ c.toNat ∧ c.toNat ≤ 90 := by
      simpa [isAsciiUpperC, Bool.and_eq_true, decide_eq_true_eq] using hu
    have hlt : c.toNat + 32 < 55296 := by omega
    have ht : (jsToLower c).toNat = c.toNat + 32 := by
      simp [jsToLower, hu, toNat_ofNat_valid hlt]
    constructor
    · intro hl
      exfalso
      have h45 : (jsToLower c).toNat = 45 := by rw [hl]; rfl
      omega
    · intro hc
      exfalso
      have : c.toNat = 45 := by rw [hc]; rfl
      omega
  · have hid : jsToLower c = c := by simp [jsToLower, hu]
    rw [hid]

theorem dropWhile_eq_self_of {p : Char → Bool} {l : List Char}
    (h : ∀ c ∈ l, p c = false) : l.dropWhile p = l := by
  cases l with
  | nil => rfl
  | cons a t => simp [List.dropWhile, h a (by simp)]

theorem trimChars_eq_self_of {l : List Char}
    (h : ∀ c ∈ l, jsWs c = false) : trimChars l = l := by
  rw [trimChars, dropWhile_eq_self_of h, dropWhile_eq_self_of, List.reverse_reverse]
  intro c hc
  exact h c (List.mem_reverse.mp hc)

theorem trimChars_subset {l : List Char} {c : Char} (h : c ∈ trimChars l) :
    c ∈ l := by
  rw [trimChars, List.mem_reverse] at h
  have h1 := (List.dropWhile_sublist jsWs).subset h
  rw [List.mem_reverse] at h1
  exact (List.dropWhile_sublist jsWs).subset h1

theorem map_eq_self_of {f : Char → Char} {l : List Char}
    (h : ∀ c ∈ l, f c = c) : l.map f = l := by
  induction l with
  | nil => rfl
  | cons a t ih =>
    rw [List.map_cons, h a (by simp), ih fun c hc => h c (List.mem_cons_of_mem a hc)]

theorem sanitizeCore_mem_allowed {l : List Char} :
    ∀ c ∈ sanitizeCore l, allowedFinal c = true := by
  intro c hc
  rw [sanitizeCore] at hc
  have h1 := List.take_subset 50 _ hc
  rw [List.mem_map] at h1
  obtain ⟨c4, hc4, rfl⟩ := h1
  have h2 : preLowerChar c4 = true := by
    have h3 := stripEdgeHyphens_subset hc4
    rcases mem_replaceRuns h3 with h4 | ⟨h4, _⟩
    · simp [preLowerChar, h4]
    · rcases mem_replaceRuns h4 with h5 | ⟨h5, h6⟩
      · simp [preLowerChar, h5]
      · have h7 := List.mem_filter.mp h5
        have h8 := h7.2
        simp only [keepChar, Bool.or_eq_true] at h8
        simp only [preLowerChar, Bool.or_eq_true]
        rcases h8 with ((((h9 | h9) | h9) | h9) | h9) | h9
        · tauto
        · tauto
        · tauto
        · rw [h9] at h6
          exact absurd h6 (by simp)
        · tauto
        · tauto
  exact jsToLower_allowed (by simpa [preLowerChar] using h2)

theorem sanitizeCore_length_le {l : List Char} :
    (sanitizeCore l).length ≤ 50 := by
  rw [sanitizeCore, List.length_take]
  exact Nat.min_le_left _ _

theorem sanitizeCore_chain {l : List Char} : noTwoHyphens (sanitizeCore l) := by
  rw [sanitizeCore]
  apply List.Chain'.take
  have hstep : ∀ a b : Char, ¬(a = '-' ∧ b = '-') →
      ¬(jsToLower a = '-' ∧ jsToLower b = '-') := by
    intro a b hab h2
    exact hab ⟨(jsToLower_eq_hyphen_iff a).mp h2.1,
      (jsToLower_eq_hyphen_iff b).mp h2.2⟩
  apply List.chain'_map_of_chain' jsToLower hstep
  apply stripEdgeHyphens_chain
  have h1 := chain_replaceRuns (p := fun c => decide (c = '-')) (r := '-')
    (l := replaceRuns jsWs '-' ((trimChars l).filter keepChar))
  exact h1.imp fun a b hab h2 => by
    rcases hab with h3 | h3
    · rw [h2.1] at h3
      simp at h3
    · rw [h2.2] at h3
      simp at h3

theorem head?_take_pos {l : List Char} {n : Nat} (h : 0 < n) :
    (l.take n).head? = l.head? := by
  cases l with
  | nil => simp
  | cons a t =>
    cases n with
    | zero => omega
    | succ m => simp

theorem sanitizeCore_head {l : List Char} :
    ∀ c, (sanitizeCore l).head? = some c → c ≠ '-' := by
  intro c hc
  rw [sanitizeCore, head?_take_pos (by norm_num), List.head?_map] at hc
  cases hh : (stripEdgeHyphens
      (replaceRuns (fun c => c = '-') '-'
        (replaceRuns jsWs '-' ((trimChars l).filter keepChar)))).head? with
  | none => rw [hh] at hc; simp at hc
  | some c4 =>
    rw [hh] at hc
    simp only [Option.map_some', Option.some.injEq] at hc
    have h4 : c4 ≠ '-' := by
      apply stripEdgeHyphens_head _ c4 hh
      have h1 := chain_replaceRuns (p := fun c => decide (c = '-')) (r := '-')
        (l := replaceRuns jsWs '-' ((trimChars l).filter keepChar))
      exact h1.imp fun a b hab h2 => by
        rcases hab with h3 | h3
        · rw [h2.1] at h3
          simp at h3
        · rw [h2.2] at h3
          simp at h3
    intro hcontra
    rw [← hc] at hcontra
    exact h4 ((jsToLower_eq_hyphen_iff c4).mp hcontra)

theorem getLast?_map (f : Char → Char) (l : List Char) :
    (l.map f).getLast? = l.getLast?.map f := by
  rw [List.getLast?_eq_head?_reverse, ← List.map_reverse, List.head?_map,
    ← List.getLast?_eq_head?_reverse]

theorem sanitizeCore_getLast {l : List Char}
    (hlen : (sanitizeCore l).length < 50) :
    ∀ c, (sanitizeCore l).getLast? = some c → c ≠ '-' := by
  intro c hc
  have hlt :
      ((stripEdgeHyphens
        (replaceRuns (fun c => c = '-') '-'
          (replaceRuns jsWs '-' ((trimChars l).filter keepChar)))).map
            jsToLower).length < 50 := by
    by_contra hge
    rw [sanitizeCore, List.length_take] at hlen
    omega
  have hnl : sanitizeCore l =
      (stripEdgeHyphens
        (replaceRuns (fun c => c = '-') '-'
          (replaceRuns jsWs '-' ((trimChars l).filter keepChar)))).map
            jsToLower := by
    rw [sanitizeCore]
    exact List.take_of_length_le (by omega)
  rw [hnl, getLast?_map] at hc
  cases hh : (stripEdgeHyphens
      (replaceRuns (fun c => c = '-') '-'
        (replaceRuns jsWs '-' ((trimChars l).filter keepChar)))).getLast? with
  | none => rw [hh] at hc; simp at hc
  | some c4 =>
    rw [hh] at hc
    simp only [Option.map_some', Option.some.injEq] at hc
    have h4 : c4 ≠ '-' := by
      apply stripEdgeHyphens_getLast _ c4 hh
      have h1 := chain_replaceRuns (p := fun c => decide (c = '-')) (r := '-')
        (l := replaceRuns jsWs '-' ((trimChars l).filter keepChar))
      exact h1.imp fun a b hab h2 => by
        rcases hab with h3 | h3
        · rw [h2.1] at h3
          simp at h3
        · rw [h2.2] at h3
          simp at h3
    intro hcontra
    rw [← hc] at hcontra
    exact h4 ((jsToLower_eq_hyphen_iff c4).mp hcontra)

/-- A list already of the sanitized shape is a fixed point of the
sanitizing pipeline (before truncation kicks in). -/
theorem sanitizeCore_fixed {l : List Char}
    (hmem : ∀ c ∈ l, allowedFinal c = true)
    (hh : ∀ c, l.head? = some c → c ≠ '-')
    (hl : ∀ c, l.getLast? = some c → c ≠ '-')
    (hc : noTwoHyphens l)
    (hlen : l.length ≤ 50) :
    sanitizeCore l = l := by
  rw [sanitizeCore]
  rw [trimChars_eq_self_of fun c hcm => allowedFinal_not_ws (hmem c hcm)]
  rw [List.filter_eq_self.mpr fun c hcm => allowedFinal_keep (hmem c hcm)]
  rw [replaceRuns_eq_self_of_not fun c hcm => allowedFinal_not_ws (hmem c hcm)]
  rw [replaceRuns_eq_self_of_single
    (fun c _ hp => by simpa using hp)
    (hc.imp fun a b hab => by
      by_cases ha : a = '-'
      · by_cases hb : b = '-'
        · exact absurd ⟨ha, hb⟩ hab
        · exact Or.inr (by simpa using hb)
      · exact Or.inl (by simpa using ha))]
  rw [stripEdgeHyphens_noop hh hl]
  rw [map_eq_self_of fun c hcm => jsToLower_fixed (hmem c hcm)]
  exact List.take_of_length_le hlen

/-! ## Claim C2: output shape of `sanitizeFilename` -/

/-- C2 (counterexample to the claim as stated): the filter regex
`[^a-zA-Z0-9\s\-_]` keeps underscores, so `sanitizeFilename "a_b" = "a_b"`
contains a character outside `[a-z0-9-]`; and because `substring(0, 50)`
is applied after the edge-hyphen strip, a 51-character input can produce
an output with a trailing hyphen. -/
theorem sanitizeFilename_claim_counterexample :
    ('_' ∈ (sanitizeFilename (some "a_b")).data ∧
      ¬(isAsciiLowerC '_' = true ∨ isAsciiDigitC '_' = true ∨ '_' = '-')) ∧
    (sanitizeFilename
        (some "aaaaaaaaaaaaaaaaaaaaaaaaaaaaaaaaaaaaaaaaaaaaaaaaa b")).data.getLast?
      = some '-' := by
  decide

/-- C2 (amended): for every input, `sanitizeFilename` returns a string of
at most 50 characters drawn from `[a-z0-9_-]` (so in particular
lowercase), with no leading hyphen and no two adjacent hyphens; a
trailing hyphen can only be produced by the final truncation to 50
characters; the empty string and non-string inputs map to `"untitled"`. -/
theorem sanitizeFilename_amended_spec (s : Option String) :
    (∀ c ∈ (sanitizeFilename s).data, allowedFinal c = true) ∧
    (sanitizeFilename s).data.length ≤ 50 ∧
    (∀ c, (sanitizeFilename s).data.head? = some c → c ≠ '-') ∧
    noTwoHyphens (sanitizeFilename s).data ∧
    ((sanitizeFilename s).data.length < 50 →
      ∀ c, (sanitizeFilename s).data.getLast? = some c → c ≠ '-') ∧
    sanitizeFilename (some "") = "untitled" ∧
    sanitizeFilename none = "untitled" := by
  have hu : (∀ c ∈ ("untitled" : String).data, allowedFinal c = true) ∧
      ("untitled" : String).data.length ≤ 50 ∧
      (∀ c, ("untitled" : String).data.head? = some c → c ≠ '-') ∧
      noTwoHyphens ("untitled" : String).data ∧
      (("untitled" : String).data.length < 50 →
        ∀ c, ("untitled" : String).data.getLast? = some c → c ≠ '-') := by
    refine ⟨by decide, by decide, by decide, ?_, by decide⟩
    unfold noTwoHyphens
    simp only [show ("untitled" : String).data = ['u','n','t','i','t','l','e','d']
      from rfl, List.chain'_cons, List.chain'_singleton]
    decide
  match s with
  | none =>
    exact ⟨hu.1, hu.2.1, hu.2.2.1, hu.2.2.2.1, hu.2.2.2.2, rfl, rfl⟩
  | some s =>
    by_cases hs : s = ""
    · subst hs
      exact ⟨hu.1, hu.2.1, hu.2.2.1, hu.2.2.2.1, hu.2.2.2.2, rfl, rfl⟩
    · have he : sanitizeFilename (some s) = ⟨sanitizeCore s.data⟩ := by
        simp [sanitizeFilename, hs]
      rw [he]
      exact ⟨fun c hc => sanitizeCore_mem_allowed c hc, sanitizeCore_length_le,
        sanitizeCore_head, sanitizeCore_chain,
        fun h c => sanitizeCore_getLast h c, rfl, rfl⟩

/-- C2 witness: the amended specification applied to a concrete input. -/
theorem sanitizeFilename_amended_spec_witness :
    (sanitizeFilename (some "My Title!")).data.length ≤ 50 ∧
    ('m' : Char) ≠ '-' :=
  ⟨(sanitizeFilename_amended_spec (some "My Title!")).2.1,
   (sanitizeFilename_amended_spec (some "My Title!")).2.2.1 'm' (by decide)⟩

/-! ## Claim C7: idempotence of the sanitizer -/

/-- C7 (counterexample to the claim as stated): sanitizing can return the
empty string (for an input of only special characters), and the second
application then hits the `"untitled"` fallback; likewise a truncated
output with a trailing hyphen loses that hyphen on a second pass. -/
theorem sanitize_idempotent_counterexample :
    sanitizeFilename (some "!") = "" ∧
    sanitizeFilename (some (sanitizeFilename (some "!"))) = "untitled" ∧
    ("untitled" : String) ≠ "" ∧
    sanitizeFilename
        (some "aaaaaaaaaaaaaaaaaaaaaaaaaaaaaaaaaaaaaaaaaaaaaaaaa b") =
      "aaaaaaaaaaaaaaaaaaaaaaaaaaaaaaaaaaaaaaaaaaaaaaaaa-" ∧
    sanitizeFilename (some "aaaaaaaaaaaaaaaaaaaaaaaaaaaaaaaaaaaaaaaaaaaaaaaaa-") =
      "aaaaaaaaaaaaaaaaaaaaaaaaaaaaaaaaaaaaaaaaaaaaaaaaa" ∧
    ("aaaaaaaaaaaaaaaaaaaaaaaaaaaaaaaaaaaaaaaaaaaaaaaaa" : String) ≠
      "aaaaaaaaaaaaaaaaaaaaaaaaaaaaaaaaaaaaaaaaaaaaaaaaa-" := by
  refine ⟨rfl, rfl, by decide, rfl, rfl, by decide⟩

/-- C7 (amended): `sanitizeFilename` is idempotent on every input whose
sanitized form is non-empty and does not end in a hyphen (the two failure
modes exhibited by the counterexample); determinism is immediate since
the function is pure. -/
theorem sanitize_idempotent_amended (s : String)
    (h1 : sanitizeFilename (some s) ≠ "")
    (h2 : (sanitizeFilename (some s)).data.getLast? ≠ some '-') :
    sanitizeFilename (some (sanitizeFilename (some s))) =
      sanitizeFilename (some s) := by
  by_cases hs : s = ""
  · subst hs
    decide
  · have hr : sanitizeFilename (some s) = ⟨sanitizeCore s.data⟩ := by
      simp [sanitizeFilename, hs]
    rw [hr] at h1 h2 ⊢
    have hdata : (⟨sanitizeCore s.data⟩ : String).data = sanitizeCore s.data :=
      rfl
    rw [sanitizeFilename, if_neg h1]
    rw [hdata]
    apply congrArg String.mk
    apply sanitizeCore_fixed
    · exact fun c hc => sanitizeCore_mem_allowed c hc
    · exact sanitizeCore_head
    · intro c hc
      intro hcontra
      rw [hdata] at h2
      rw [hcontra] at hc
      exact h2 hc
    · exact sanitizeCore_chain
    · exact sanitizeCore_length_le

/-- C7 witness: idempotence at a concrete input. -/
theorem sanitize_idempotent_witness :
    sanitizeFilename (some (sanitizeFilename (some "hello world"))) =
      sanitizeFilename (some "hello world") :=
  sanitize_idempotent_amended "hello world" (by decide) (by decide)

/-! ## Claims C1 and C4: batch orchestration -/

theorem asyncMapModel_ok {α : Type} (l : List String)
    (task : String → Except TaskError α) (g : String → α)
    (h : ∀ u ∈ l, task u = .ok (g u)) :
    asyncMapModel (l.map task) = .ok (l.map g) := by
  induction l with
  | nil => rfl
  | cons u t ih =>
    have ih' := ih fun v hv => h v (List.mem_cons_of_mem u hv)
    rw [List.map_cons, List.map_cons]
    simp [asyncMapModel, h u (by simp), ih', Bind.bind, Except.bind, Pure.pure, Except.pure]

theorem asyncMapModel_error {α : Type} (outs : List (Except TaskError α))
    (h : ∃ o ∈ outs, ∃ e, o = .error e) :
    ∃ e, asyncMapModel outs = .error e := by
  induction outs with
  | nil => simp at h
  | cons o t ih =>
    cases ho : o with
    | error e0 => exact ⟨e0, by simp [asyncMapModel, Bind.bind, Except.bind]⟩
    | ok a =>
      rcases h with ⟨o', ho', e', he'⟩
      rcases List.mem_cons.mp ho' with h1 | h1
      · rw [h1, ho] at he'
        exact absurd he' (by simp)
      · rcases ih ⟨o', h1, e', he'⟩ with ⟨e1, he1⟩
        exact ⟨e1, by simp [asyncMapModel, he1, Bind.bind, Except.bind]⟩

/-- C1 (counterexample to the claim as stated): in a batch of three URLs
whose second task fails with HTTP 404, `async.map` delivers the error to
the batch callback — `parseSites` produces no three-slot outcome list —
and `main` calls `process.exit(1)`, so the process exit code is 1,
not 0. -/
theorem parseSites_claim_counterexample :
    parseSites ["http://a.example", "http://b.example", "http://c.example"]
        c1Task = .error (.httpStatus 404 "http://b.example") ∧
    mainExitCode ["http://a.example", "http://b.example", "http://c.example"]
        c1Task = 1 ∧
    (1 : Nat) ≠ 0 := by
  exact ⟨rfl, rfl, by decide⟩

/-- C1 (amended): every site task is launched (the batch outcome depends
on each site's own task only), and when every site succeeds `parseSites`
delivers one result slot per URL in input order and the exit code is 0;
but when any site's task fails, the batch callback receives an error
instead of a per-URL slot list (`async.map` is fail-fast, not a
reflecting map) and the process exits with code 1. -/
theorem parseSites_amended (sites : List String)
    (task : String → Except TaskError (List String))
    (g : String → List String) :
    (sites ≠ [] → (∀ u ∈ sites, task u = .ok (g u)) →
      parseSites sites task = .ok (sites.map g) ∧
        mainExitCode sites task = 0) ∧
    ((∃ u ∈ sites, ∃ e, task u = .error e) →
      (∃ e, parseSites sites task = .error e) ∧
        mainExitCode sites task = 1) := by
  constructor
  · intro hne hok
    have hmap : parseSites sites task = .ok (sites.map g) := by
      rw [parseSites, if_neg (by simpa [List.isEmpty_iff] using hne)]
      exact asyncMapModel_ok sites task g hok
    exact ⟨hmap, by rw [mainExitCode, hmap]⟩
  · intro hex
    have hne : sites ≠ [] := by
      rcases hex with ⟨u, hu, _⟩
      intro hemp
      rw [hemp] at hu
      simp at hu
    have herr : ∃ e, parseSites sites task = .error e := by
      rw [parseSites, if_neg (by simpa [List.isEmpty_iff] using hne)]
      apply asyncMapModel_error
      rcases hex with ⟨u, hu, e, he⟩
      exact ⟨task u, List.mem_map_of_mem task hu, e, he⟩
    rcases herr with ⟨e, he⟩
    exact ⟨⟨e, he⟩, by rw [mainExitCode, he]⟩

/-- C1 witness: the amended behaviour at concrete batches. -/
theorem parseSites_amended_witness :
    parseSites ["http://a.example"] (fun u => .ok [u]) =
      .ok [["http://a.example"]] ∧
    mainExitCode ["http://b.example"] c1Task = 1 :=
  ⟨((parseSites_amended ["http://a.example"] (fun u => .ok [u])
      (fun u => [u])).1 (by decide)
      (fun u hu => rfl)).1,
   ((parseSites_amended ["http://b.example"] c1Task (fun _ => [])).2
      ⟨"http://b.example", by simp, .httpStatus 404 "http://b.example",
        rfl⟩).2⟩

/-- C4: `parseUrl` joins the screenshot sub-task and the text-pipeline
sub-task all-or-nothing: it succeeds exactly when both sub-tasks
succeed (delivering both messages), and a failure of either sub-task is
surfaced as the whole site task's failure — never an independent partial
success. -/
theorem parseUrl_join (o1 o2 : Except TaskError String) :
    ((∃ l, parseUrl o1 o2 = .ok l) ↔
      (∃ a, o1 = .ok a) ∧ (∃ b, o2 = .ok b)) ∧
    (∀ l, parseUrl o1 o2 = .ok l →
      ∃ a b, o1 = .ok a ∧ o2 = .ok b ∧ l = [a, b]) ∧
    ((∃ e, parseUrl o1 o2 = .error e) ↔
      (∃ e, o1 = .error e) ∨ (∃ e, o2 = .error e)) ∧
    (∀ e, parseUrl o1 o2 = .error e → o1 = .error e ∨ o2 = .error e) := by
  cases o1 <;> cases o2 <;> simp [parseUrl]

/-- C4 witness: a failing content sub-task is surfaced as the site
task's failure. -/
theorem parseUrl_join_witness :
    (Except.ok "shot" : Except TaskError String) =
        .error (.network "boom") ∨
      (Except.error (.network "boom") : Except TaskError String) =
        .error (.network "boom") :=
  (parseUrl_join (.ok "shot") (.error (.network "boom"))).2.2.2
    (.network "boom") rfl

/-! ## Claim C5: the crop rectangle -/

theorem jsRound_le (q : ℚ) : (jsRound q : ℚ) ≤ q + 1/2 := by
  rw [jsRound]
  exact Int.floor_le (q + 1/2)

theorem lt_jsRound (q : ℚ) : q - 1/2 < (jsRound q : ℚ) := by
  rw [jsRound]
  have := Int.sub_one_lt_floor (q + 1/2)
  linarith

theorem jsRound_intCast (n : ℤ) : jsRound ((n : ℚ)) = n := by
  rw [jsRound, add_comm, Int.floor_add_int]
  norm_num

theorem computeCropGeometry_eq_wide (W H : ℕ)
    (hc : (W : ℚ) / (H : ℚ) > (outputWidth : ℚ) / (outputHeight : ℚ)) :
    computeCropGeometry W H =
      { cropWidth := jsRound ((H : ℚ) * ((outputWidth : ℚ) / (outputHeight : ℚ))),
        cropHeight := H,
        cropX := jsRound (((W : ℚ) -
          ((jsRound ((H : ℚ) * ((outputWidth : ℚ) / (outputHeight : ℚ))) : ℤ) : ℚ)) / 2),
        cropY := 0 } := by
  simp only [computeCropGeometry]
  rw [if_pos hc]

theorem computeCropGeometry_eq_tall (W H : ℕ)
    (hc : ¬((W : ℚ) / (H : ℚ) > (outputWidth : ℚ) / (outputHeight : ℚ))) :
    computeCropGeometry W H =
      { cropWidth := W,
        cropHeight := jsRound ((W : ℚ) / ((outputWidth : ℚ) / (outputHeight : ℚ))),
        cropX := 0,
        cropY := jsRound (((H : ℚ) -
          ((jsRound ((W : ℚ) / ((outputWidth : ℚ) / (outputHeight : ℚ))) : ℤ) : ℚ)) / 2) } := by
  simp only [computeCropGeometry]
  rw [if_neg hc]

/-- C5: for positive original dimensions and the configured 400×200
target, the crop rectangle is fully contained in the original image
(`cropX + cropWidth ≤ width`, `cropY + cropHeight ≤ height`, both
offsets non-negative), is non-degenerate, and its aspect ratio equals
the target ratio up to integer rounding:
`|cropWidth·outputHeight − cropHeight·outputWidth| ≤ outputHeight`
(that is, `|cropWidth − 2·cropHeight| ≤ 1`). -/
theorem computeCropGeometry_spec (width height : ℕ)
    (hw : 0 < width) (hh : 0 < height) :
    0 ≤ (computeCropGeometry width height).cropX ∧
    0 ≤ (computeCropGeometry width height).cropY ∧
    0 < (computeCropGeometry width height).cropWidth ∧
    0 < (computeCropGeometry width height).cropHeight ∧
    (computeCropGeometry width height).cropX +
        (computeCropGeometry width height).cropWidth ≤ (width : ℤ) ∧
    (computeCropGeometry width height).cropY +
        (computeCropGeometry width height).cropHeight ≤ (height : ℤ) ∧
    ((computeCropGeometry width height).cropWidth * (outputHeight : ℤ) -
        (computeCropGeometry width height).cropHeight * (outputWidth : ℤ)).natAbs
      ≤ outputHeight := by
  have h2 : (outputWidth : ℚ) / (outputHeight : ℚ) = 2 := by
    norm_num [outputWidth, outputHeight]
  have hhq : (0 : ℚ) < (height : ℚ) := by exact_mod_cast hh
  have hOH : (outputHeight : ℤ) = 200 := by norm_num [outputHeight]
  have hOW : (outputWidth : ℤ) = 400 := by norm_num [outputWidth]
  by_cases hc : (width : ℚ) / (height : ℚ) > (outputWidth : ℚ) / (outputHeight : ℚ)
  · -- source wider than target ratio
    have hcn : 2 * (height : ℤ) < (width : ℤ) := by
      rw [h2, gt_iff_lt, lt_div_iff₀ hhq] at hc
      exact_mod_cast hc
    have hcw : jsRound ((height : ℚ) * ((outputWidth : ℚ) / (outputHeight : ℚ)))
        = 2 * (height : ℤ) := by
      rw [h2]
      have he : (height : ℚ) * 2 = ((2 * (height : ℤ) : ℤ) : ℚ) := by
        push_cast
        ring
      rw [he, jsRound_intCast]
    rw [computeCropGeometry_eq_wide width height hc]
    dsimp only
    rw [hcw]
    have hx : ((width : ℚ) - ((2 * (height : ℤ) : ℤ) : ℚ)) / 2 =
        (((width : ℤ) - 2 * (height : ℤ) : ℤ) : ℚ) / 2 := by
      push_cast
      ring
    rw [hx]
    set k : ℤ := (width : ℤ) - 2 * (height : ℤ) with hk
    have hk1 : 1 ≤ k := by omega
    have hk1q : (1 : ℚ) ≤ (k : ℚ) := by exact_mod_cast hk1
    set cx : ℤ := jsRound ((k : ℚ) / 2) with hcx
    have hcx0 : 0 ≤ cx := by
      rw [hcx, jsRound, Int.le_floor]
      push_cast
      linarith
    have hcxk : cx ≤ k := by
      have h1 : (cx : ℚ) ≤ (k : ℚ) / 2 + 1 / 2 := jsRound_le _
      have h3 : (cx : ℚ) < (k : ℚ) + 1 := by linarith
      have h4 : cx < k + 1 := by exact_mod_cast h3
      omega
    refine ⟨hcx0, le_refl 0, by omega, by exact_mod_cast hh, by omega,
      by omega, ?_⟩
    rw [hOH, hOW]
    have : (2 * (height : ℤ) * 200 - (height : ℤ) * 400) = 0 := by ring
    rw [this]
    norm_num [outputHeight]
  · -- source not wider than target ratio
    have hcn : (width : ℤ) ≤ 2 * (height : ℤ) := by
      rw [h2, gt_iff_lt, not_lt, div_le_iff₀ hhq] at hc
      exact_mod_cast hc
    rw [computeCropGeometry_eq_tall width height hc]
    dsimp only
    rw [h2]
    set ch : ℤ := jsRound ((width : ℚ) / 2) with hch
    have hch_low : (width : ℤ) ≤ 2 * ch := by
      have h1 := lt_jsRound ((width : ℚ) / 2)
      rw [← hch] at h1
      have h3 : (width : ℚ) - 1 < 2 * (ch : ℚ) := by linarith
      have h4 : (width : ℤ) - 1 < 2 * ch := by exact_mod_cast h3
      omega
    have hch_high : 2 * ch ≤ (width : ℤ) + 1 := by
      have h1 := jsRound_le ((width : ℚ) / 2)
      rw [← hch] at h1
      have h3 : 2 * (ch : ℚ) ≤ (width : ℚ) + 1 := by linarith
      exact_mod_cast h3
    have hwz : (1 : ℤ) ≤ (width : ℤ) := by exact_mod_cast hw
    have hhz : (1 : ℤ) ≤ (height : ℤ) := by exact_mod_cast hh
    have hy : ((height : ℚ) - ((ch : ℤ) : ℚ)) / 2 =
        (((height : ℤ) - ch : ℤ) : ℚ) / 2 := by
      push_cast
      ring
    rw [hy]
    set k : ℤ := (height : ℤ) - ch with hk
    have hk0 : 0 ≤ k := by omega
    have hk0q : (0 : ℚ) ≤ (k : ℚ) := by exact_mod_cast hk0
    set cy : ℤ := jsRound ((k : ℚ) / 2) with hcy
    have hcy0 : 0 ≤ cy := by
      rw [hcy, jsRound, Int.le_floor]
      push_cast
      linarith
    have hcyk : cy ≤ k := by
      have h1 : (cy : ℚ) ≤ (k : ℚ) / 2 + 1 / 2 := jsRound_le _
      have h3 : (cy : ℚ) < (k : ℚ) + 1 := by linarith
      have h4 : cy < k + 1 := by exact_mod_cast h3
      omega
    refine ⟨le_refl 0, hcy0, by omega, by omega, by omega, by omega, ?_⟩
    rw [hOH, hOW]
    have : ((width : ℤ) * 200 - ch * 400).natAbs ≤ 200 := by omega
    simpa [outputHeight] using this

/-- C5 witness: containment and ratio at a concrete 5×3 image. -/
theorem computeCropGeometry_spec_witness :
    0 ≤ (computeCropGeometry 5 3).cropX ∧
    0 ≤ (computeCropGeometry 5 3).cropY ∧
    0 < (computeCropGeometry 5 3).cropWidth ∧
    0 < (computeCropGeometry 5 3).cropHeight ∧
    (computeCropGeometry 5 3).cropX + (computeCropGeometry 5 3).cropWidth
      ≤ (5 : ℤ) ∧
    (computeCropGeometry 5 3).cropY + (computeCropGeometry 5 3).cropHeight
      ≤ (3 : ℤ) ∧
    ((computeCropGeometry 5 3).cropWidth * (outputHeight : ℤ) -
        (computeCropGeometry 5 3).cropHeight * (outputWidth : ℤ)).natAbs
      ≤ outputHeight :=
  computeCropGeometry_spec 5 3 (by decide) (by decide)

/-! ## Claims C6 and C8: formatting and metadata extraction -/

theorem head?_append_some {s t : String} {c : Char}
    (h : s.data.head? = some c) : (s ++ t).data.head? = some c := by
  rw [String.data_append]
  cases hs : s.data with
  | nil => rw [hs] at h; simp at h
  | cons a cs =>
    rw [hs] at h
    simpa using h

/-- C6: for every URL containing the `"buscandriu"` marker, the
site-formatted block is `"Buscandriu: "` followed by an HTML list item
holding the title truncated at the first `'|'` and trimmed, with a
trailing "[link]" anchor; for the title `"Foo | Extra"` the rendered
title is `"Foo"`; and the block is never the generic
anchor-plus-description block. -/
theorem buscandriu_format (title description sitename : String)
    (h : containsSub "buscandriu".data sitename.data = true) :
    fullFormatFor title description sitename =
      "Buscandriu: " ++ liLinkItem (jsTrimS (beforeFirstBar title)) sitename ∧
    jsTrimS (beforeFirstBar "Foo | Extra") = "Foo" ∧
    fullFormatFor title description sitename ≠
      genericBlock title description sitename := by
  refine ⟨?_, by decide, ?_⟩
  · rw [fullFormatFor, if_pos h, liLinkItem]
    apply String.ext
    simp [String.data_append]
  · intro heq
    have hB : (fullFormatFor title description sitename).data.head? =
        some 'B' := by
      rw [fullFormatFor, if_pos h]
      exact head?_append_some (head?_append_some (head?_append_some
        (head?_append_some rfl)))
    have hF : (genericBlock title description sitename).data.head? =
        some 'F' := by
      rw [genericBlock]
      exact head?_append_some (head?_append_some (head?_append_some
        (head?_append_some (head?_append_some (head?_append_some
          (head?_append_some (head?_append_some rfl)))))))
    rw [heq, hF] at hB
    simp at hB

/-- C6 witness: the buscandriu rendering at a concrete URL and title. -/
theorem buscandriu_format_witness :
    fullFormatFor "Foo | Extra" "Desc" "http://buscandriu.cl/x" =
      "Buscandriu: " ++ liLinkItem "Foo" "http://buscandriu.cl/x" := by
  have h := (buscandriu_format "Foo | Extra" "Desc" "http://buscandriu.cl/x"
    (by decide)).1
  rw [h, show jsTrimS (beforeFirstBar "Foo | Extra") = "Foo" from by decide]

/-- C8 (counterexample to the claim as stated): a document containing
both meta tags, where the `meta[name=description]` element's `content`
is the empty string, falls through to `og:description` because the
JavaScript `||` chain treats `""` as falsy. -/
theorem extract_description_counterexample :
    extractedDescription
        { titleText := "T", metaDescription := some "",
          ogDescription := some "from og" } = "from og" ∧
    ("from og" : String) ≠ "" := ⟨rfl, by decide⟩

/-- C8 (amended): extraction uses the `meta[name=description]` content
whenever that content is non-empty; an absent or empty one falls back to
`og:description` and then to `"No description found"`; a missing or
whitespace-only title yields `"No title found"`. -/
theorem extract_metadata_amended (d : PageDoc) :
    (∀ s, d.metaDescription = some s → s ≠ "" →
      extractedDescription d = s) ∧
    (jsTrimS d.titleText = "" → extractedTitle d = "No title found") ∧
    ((d.metaDescription = none ∨ d.metaDescription = some "") →
      (d.ogDescription = none ∨ d.ogDescription = some "") →
      extractedDescription d = "No description found") := by
  refine ⟨?_, ?_, ?_⟩
  · intro s hs hne
    rw [extractedDescription, hs]
    simp [jsOrO, hne]
  · intro ht
    rw [extractedTitle, ht]
    rfl
  · intro h1 h2
    rcases h1 with h1 | h1 <;> rcases h2 with h2 | h2 <;>
      simp [extractedDescription, h1, h2, jsOrO]

/-- C8 witness: a non-empty `meta[name=description]` wins over
`og:description`, and a missing title falls back. -/
theorem extract_metadata_amended_witness :
    extractedDescription
        { titleText := "", metaDescription := some "the description",
          ogDescription := some "og text" } = "the description" ∧
    extractedTitle
        { titleText := "", metaDescription := some "the description",
          ogDescription := some "og text" } = "No title found" :=
  ⟨(extract_metadata_amended _).1 "the description" rfl (by decide),
   (extract_metadata_amended _).2.1 (by decide)⟩

/-! ## Claim C3: `cleanName` -/

theorem splitOnDSlash_no_sep {l : List Char}
    (h : containsSub ['/', '/'] l = false) : splitOnDSlash l = [l] := by
  induction l with
  | nil => rfl
  | cons c cs ih =>
    rw [containsSub, Bool.or_eq_false_iff] at h
    obtain ⟨h1, h2⟩ := h
    rw [splitOnDSlash.eq_def]
    split
    · rename_i t heq
      exact absurd heq (by simp)
    · rename_i x t heq
      exfalso
      injection heq with hc hcs
      subst hc
      subst hcs
      simp [List.isPrefixOf] at h1
    · rename_i x c2 cs2 hno heq
      injection heq with hc hcs
      subst hc
      subst hcs
      rw [ih h2]
      rfl

/-- C3 (counterexample to the claim as stated): for the well-formed URL
`"https://www.example.com/path"` the code slugs everything after the
`"//"` — host *and* path — because it takes `href.split("//")[1]`, so
the result is `"example-com-path"`, not the bare-host slug
`"example-com"`. -/
theorem cleanName_claim_counterexample :
    cleanName (some "https://www.example.com/path") = "example-com-path" ∧
    ("example-com-path" : String) ≠ "example-com" := ⟨rfl, by decide⟩

/-- C3 (amended): absent, non-string and empty inputs yield
`"unknown-site"`, as does every string with no `"//"` after the first
`"www."` is removed (there `sluggin(undefined)` throws and the `catch`
returns the fallback); but for a well-formed URL the result is the slug
of everything after `"//"`, including the path:
`"https://www.example.com/path"` gives `"example-com-path"`. -/
theorem cleanName_amended (s : String) :
    cleanName none = "unknown-site" ∧
    cleanName (some "") = "unknown-site" ∧
    (containsSub ['/', '/'] (dropFirstWWW s.data) = false →
      cleanName (some s) = "unknown-site") ∧
    cleanName (some "https://www.example.com/path") = "example-com-path" := by
  refine ⟨rfl, rfl, ?_, rfl⟩
  intro h
  by_cases hs : s = ""
  · simp [cleanName, hs]
  · rw [cleanName]
    rw [if_neg hs, splitOnDSlash_no_sep h]
    rfl

/-- C3 witness: the fallback at a concrete malformed URL (the repo's own
test input `'invalid-url'`). -/
theorem cleanName_amended_witness :
    cleanName (some "invalid-url") = "unknown-site" :=
  (cleanName_amended "invalid-url").2.2.1 (by decide)

/-! ## Claim C9: background-image URL extraction and resolution -/

theorem takeWhile_append_all {p : Char → Bool} :
    ∀ {l₁ l₂ : List Char}, (∀ c ∈ l₁, p c = true) →
      (l₁ ++ l₂).takeWhile p = l₁ ++ l₂.takeWhile p
  | [], l₂, _ => rfl
  | a :: t, l₂, h => by
    rw [List.cons_append, List.takeWhile_cons, h a (by simp), List.cons_append]
    rw [takeWhile_append_all fun c hc => h c (List.mem_cons_of_mem a hc)]
    simp

theorem append_ne_empty_left {s t : String} (h : s ≠ "") : s ++ t ≠ "" := by
  intro he
  apply h
  apply String.ext
  have hd := congrArg String.data he
  rw [String.data_append, show ("" : String).data = [] from rfl] at hd
  have h2 := List.append_eq_nil.mp hd
  rw [h2.1]

theorem skipWs_eq_self_of {l : List Char} (h : ∀ c ∈ l, jsWs c = false) :
    skipWs l = l := by
  rw [skipWs]
  exact dropWhile_eq_self_of h

theorem bgUrlChar_split {c : Char} (h : bgUrlChar c = true) :
    c ≠ '\'' ∧ c ≠ '"' ∧ c ≠ ')' := by
  simp only [bgUrlChar, Bool.not_eq_true', Bool.or_eq_false_iff,
    decide_eq_false_iff_not] at h
  exact ⟨h.1.1, h.1.2, h.2⟩

theorem parseBgTail_unquoted (u : String) (hu : u.data ≠ [])
    (hchars : ∀ x ∈ u.data, bgUrlChar x = true ∧ jsWs x = false) :
    parseBgTail (u.data ++ [')']) = some u.data := by
  obtain ⟨c, t, hct⟩ : ∃ c t, u.data = c :: t := by
    cases hc : u.data with
    | nil => exact absurd hc hu
    | cons c t => exact ⟨c, t, rfl⟩
  have hall : ∀ x ∈ u.data ++ [')'], jsWs x = false := by
    intro x hx
    rcases List.mem_append.mp hx with hx | hx
    · exact (hchars x hx).2
    · simp only [List.mem_singleton] at hx
      subst hx
      decide
  have h1 : skipWs (u.data ++ [')']) = u.data ++ [')'] := skipWs_eq_self_of hall
  have hcq := bgUrlChar_split (hchars c (by rw [hct]; simp)).1
  have h2 : skipOptQuote (u.data ++ [')']) = u.data ++ [')'] := by
    rw [hct, List.cons_append, skipOptQuote]
    simp [hcq.1, hcq.2.1]
  have h3 : (u.data ++ [')']).takeWhile bgUrlChar = u.data := by
    rw [takeWhile_append_all fun x hx => (hchars x hx).1]
    rw [show ([')'] : List Char).takeWhile bgUrlChar = [] from rfl,
      List.append_nil]
  have h5 : u.data.isEmpty = false := by rw [hct]; rfl
  have h4 : (u.data ++ [')']).drop u.data.length = [')'] := List.drop_left _ _
  simp only [parseBgTail, h1, h2, h3, h5, h4]
  rfl

theorem parseBgTail_squote (u : String) (hu : u.data ≠ [])
    (hchars : ∀ x ∈ u.data, bgUrlChar x = true ∧ jsWs x = false) :
    parseBgTail ('\'' :: (u.data ++ ['\'', ')'])) = some u.data := by
  have hall : ∀ x ∈ u.data ++ ['\'', ')'], jsWs x = false := by
    intro x hx
    rcases List.mem_append.mp hx with hx | hx
    · exact (hchars x hx).2
    · rcases List.mem_cons.mp hx with hx | hx
      · subst hx; decide
      · simp only [List.mem_singleton] at hx; subst hx; decide
  have h0 : skipWs ('\'' :: (u.data ++ ['\'', ')'])) =
      '\'' :: (u.data ++ ['\'', ')']) := by
    rw [skipWs]
    apply dropWhile_eq_self_of
    intro x hx
    rcases List.mem_cons.mp hx with hx | hx
    · subst hx; decide
    · exact hall x hx
  have h2 : skipOptQuote ('\'' :: (u.data ++ ['\'', ')'])) =
      u.data ++ ['\'', ')'] := by
    rw [skipOptQuote]
    simp
  have h3 : (u.data ++ ['\'', ')']).takeWhile bgUrlChar = u.data := by
    rw [takeWhile_append_all fun x hx => (hchars x hx).1]
    rw [show (['\'', ')'] : List Char).takeWhile bgUrlChar = [] from rfl,
      List.append_nil]
  have h5 : u.data.isEmpty = false := by
    cases hc : u.data with
    | nil => exact absurd hc hu
    | cons c t => rfl
  have h4 : (u.data ++ ['\'', ')']).drop u.data.length = ['\'', ')'] :=
    List.drop_left _ _
  simp only [parseBgTail, h0, h2, h3, h5, h4]
  rfl

theorem parseBgTail_dquote (u : String) (hu : u.data ≠ [])
    (hchars : ∀ x ∈ u.data, bgUrlChar x = true ∧ jsWs x = false) :
    parseBgTail ('"' :: (u.data ++ ['"', ')'])) = some u.data := by
  have h0 : skipWs ('"' :: (u.data ++ ['"', ')'])) =
      '"' :: (u.data ++ ['"', ')']) := by
    rw [skipWs]
    apply dropWhile_eq_self_of
    intro x hx
    rcases List.mem_cons.mp hx with hx | hx
    · subst hx; decide
    · rcases List.mem_append.mp hx with hx | hx
      · exact (hchars x hx).2
      · rcases List.mem_cons.mp hx with hx | hx
        · subst hx; decide
        · simp only [List.mem_singleton] at hx; subst hx; decide
  have h2 : skipOptQuote ('"' :: (u.data ++ ['"', ')'])) =
      u.data ++ ['"', ')'] := by
    rw [skipOptQuote]
    simp
  have h3 : (u.data ++ ['"', ')']).takeWhile bgUrlChar = u.data := by
    rw [takeWhile_append_all fun x hx => (hchars x hx).1]
    rw [show (['"', ')'] : List Char).takeWhile bgUrlChar = [] from rfl,
      List.append_nil]
  have h5 : u.data.isEmpty = false := by
    cases hc : u.data with
    | nil => exact absurd hc hu
    | cons c t => rfl
  have h4 : (u.data ++ ['"', ')']).drop u.data.length = ['"', ')'] :=
    List.drop_left _ _
  simp only [parseBgTail, h0, h2, h3, h5, h4]
  rfl

theorem extractBg_of_decomp (u s : String) (X : List Char)
    (hsd : s.data = 'b' :: ("ackground-image:url(".data ++ X))
    (htail : parseBgTail X = some u.data)
    (hnws : ∀ x ∈ u.data, jsWs x = false) :
    extractBackgroundImageUrl s = some u := by
  have hne : s ≠ "" := by
    intro he
    rw [he] at hsd
    exact absurd hsd (by simp)
  have hp : parseBgAt ('b' :: ("ackground-image:url(".data ++ X)) =
      some u.data := htail
  rw [extractBackgroundImageUrl, if_neg hne, hsd]
  simp only [scanBg, hp, Option.map_some']
  have htrim : jsTrimS ⟨u.data⟩ = u := by
    rw [show jsTrimS ⟨u.data⟩ = ⟨trimChars u.data⟩ from rfl,
      trimChars_eq_self_of hnws]
  rw [htrim]

theorem not_dslash_of_not_slash {l : List Char}
    (h : List.isPrefixOf ['/'] l = false) :
    List.isPrefixOf ['/', '/'] l = false := by
  cases l with
  | nil => rfl
  | cons c t =>
    by_cases hc : c = '/'
    · subst hc
      simp [List.isPrefixOf] at h
    · simp only [List.isPrefixOf, Bool.and_eq_false_iff]
      exact Or.inl (by simpa using fun hcontra => hc hcontra.symm)

/-- C9: a banner style declaring `background-image:url('/img/a.jpg')` on
a page at `https://site.com/p` yields the candidate
`https://site.com/img/a.jpg`; the `url(...)` value is recognised with
single, double or no quotes around any quote-free, parenthesis-free,
whitespace-free URL; and protocol-relative, root-relative and
path-relative URLs are resolved to absolute URLs against the page. -/
theorem extractBackgroundImageUrl_spec (u v : String)
    (hu : u.data ≠ [])
    (hchars : ∀ x ∈ u.data, bgUrlChar x = true ∧ jsWs x = false) :
    (extractBackgroundImageUrl "background-image:url('/img/a.jpg')" =
        some "/img/a.jpg" ∧
      resolveCandidateUrl "https://site.com/p" "/img/a.jpg" =
        "https://site.com/img/a.jpg") ∧
    extractBackgroundImageUrl ("background-image:url(" ++ u ++ ")") =
      some u ∧
    extractBackgroundImageUrl ("background-image:url('" ++ u ++ "')") =
      some u ∧
    extractBackgroundImageUrl ("background-image:url(\"" ++ u ++ "\")") =
      some u ∧
    (List.isPrefixOf "//".data v.data = true →
      resolveCandidateUrl "https://site.com/p" v = "https:" ++ v) ∧
    (List.isPrefixOf "//".data v.data = false →
      List.isPrefixOf "/".data v.data = true →
      resolveCandidateUrl "https://site.com/p" v = "https://site.com" ++ v) ∧
    (List.isPrefixOf "/".data v.data = false →
      List.isPrefixOf "http".data v.data = false →
      resolveCandidateUrl "https://site.com/p" v = "https://site.com/" ++ v) := by
  refine ⟨⟨by decide, by decide⟩, ?_, ?_, ?_, ?_, ?_, ?_⟩
  · exact extractBg_of_decomp u _ (u.data ++ [')']) rfl
      (parseBgTail_unquoted u hu hchars) fun x hx => (hchars x hx).2
  · exact extractBg_of_decomp u _ ('\'' :: (u.data ++ ['\'', ')'])) rfl
      (parseBgTail_squote u hu hchars) fun x hx => (hchars x hx).2
  · exact extractBg_of_decomp u _ ('"' :: (u.data ++ ['"', ')'])) rfl
      (parseBgTail_dquote u hu hchars) fun x hx => (hchars x hx).2
  · intro h0
    simp [resolveCandidateUrl, h0]
  · intro h0 h1
    simp only [resolveCandidateUrl, h0, h1]
    rfl
  · intro h1 h2
    have h0 : List.isPrefixOf "//".data v.data = false :=
      not_dslash_of_not_slash h1
    simp only [resolveCandidateUrl, h0, h1, h2]
    rfl

/-- C9 witness: extraction and resolution at concrete inputs. -/
theorem extractBackgroundImageUrl_spec_witness :
    extractBackgroundImageUrl ("background-image:url(" ++ "/img/b.png" ++ ")") =
      some "/img/b.png" ∧
    resolveCandidateUrl "https://site.com/p" "//cdn.example/x.png" =
      "https:" ++ "//cdn.example/x.png" :=
  ⟨(extractBackgroundImageUrl_spec "/img/b.png" "//cdn.example/x.png"
      (by decide) (by decide)).2.1,
   (extractBackgroundImageUrl_spec "/img/b.png" "//cdn.example/x.png"
      (by decide) (by decide)).2.2.2.2.1 (by decide)⟩

/-! ## Claim C10: `generateFilename` safety -/

theorem ite_default_ne {a d : String} (hd : d ≠ "") :
    (if a = "" then d else a) ≠ "" := by
  by_cases h : a = "" <;> simp [h, hd]

/-- C10: for every combination of page title, page URL and timestamp —
including absent or non-string values — `generateFilename` returns a
non-empty name of the shape `…_timestamp.jpg`; a non-string URL gives
the `cropped_image_timestamp.jpg` fallback; otherwise the name is
`hostname_title_timestamp.jpg` where the hostname part falls back to
`"unknown"` (missing hostname) and the title part to `"untitled"`
(missing, empty, whitespace-only, or sanitized-to-empty title). -/
theorem generateFilename_safe (t u : Option String) (ts : Nat) :
    (∃ p : String, p ≠ "" ∧
      generateFilename t u ts = p ++ "_" ++ toString ts ++ ".jpg") ∧
    generateFilename t u ts ≠ "" ∧
    (u = none → generateFilename t u ts =
      "cropped_image_" ++ toString ts ++ ".jpg") ∧
    (∀ s, u = some s → ∃ hp tp, hp ≠ "" ∧ tp ≠ "" ∧
      (nodeHostname s = none → hp = "unknown") ∧
      ((t = none ∨ jsTrimS (t.getD "") = "") → tp = "untitled") ∧
      (∀ t2, t = some t2 → sanitizeFilename (some t2) = "" →
        tp = "untitled") ∧
      generateFilename t u ts =
        hp ++ "_" ++ tp ++ "_" ++ toString ts ++ ".jpg") := by
  match u with
  | none =>
    refine ⟨⟨"cropped_image", by decide, rfl⟩, ?_, fun _ => rfl, ?_⟩
    · exact append_ne_empty_left (append_ne_empty_left (by decide))
    · intro s hs
      exact absurd hs (by simp)
  | some s =>
    have hdef : generateFilename t (some s) ts =
        (if sanitizeFilename (some (dropLeadingWWW
            (match nodeHostname s with
             | none => "unknown"
             | some h => if h = "" then "unknown" else h))) = ""
          then "unknown"
          else sanitizeFilename (some (dropLeadingWWW
            (match nodeHostname s with
             | none => "unknown"
             | some h => if h = "" then "unknown" else h)))) ++ "_" ++
        (if (match t with
             | none => "untitled"
             | some t2 =>
               if t2 = "" ∨ jsTrimS t2 = "" then "untitled"
               else sanitizeFilename (some t2)) = ""
          then "untitled"
          else (match t with
             | none => "untitled"
             | some t2 =>
               if t2 = "" ∨ jsTrimS t2 = "" then "untitled"
               else sanitizeFilename (some t2))) ++ "_" ++
        toString ts ++ ".jpg" := rfl
    set CH := sanitizeFilename (some (dropLeadingWWW
        (match nodeHostname s with
         | none => "unknown"
         | some h => if h = "" then "unknown" else h))) with hCH
    set TP := (match t with
        | none => "untitled"
        | some t2 =>
          if t2 = "" ∨ jsTrimS t2 = "" then "untitled"
          else sanitizeFilename (some t2)) with hTP
    have hH2 : (if CH = "" then "unknown" else CH) ≠ "" :=
      ite_default_ne (by decide)
    have hP2 : (if TP = "" then "untitled" else TP) ≠ "" :=
      ite_default_ne (by decide)
    have hne1 : (if CH = "" then "unknown" else CH) ++ "_" ≠ "" :=
      append_ne_empty_left hH2
    have hne2 : ((if CH = "" then "unknown" else CH) ++ "_") ++
        (if TP = "" then "untitled" else TP) ≠ "" :=
      append_ne_empty_left hne1
    have hne3 : (((if CH = "" then "unknown" else CH) ++ "_") ++
        (if TP = "" then "untitled" else TP)) ++ "_" ≠ "" :=
      append_ne_empty_left hne2
    have hne4 : ((((if CH = "" then "unknown" else CH) ++ "_") ++
        (if TP = "" then "untitled" else TP)) ++ "_") ++ toString ts ≠ "" :=
      append_ne_empty_left hne3
    have hne5 : (((((if CH = "" then "unknown" else CH) ++ "_") ++
        (if TP = "" then "untitled" else TP)) ++ "_") ++ toString ts) ++
        ".jpg" ≠ "" :=
      append_ne_empty_left hne4
    refine ⟨⟨(if CH = "" then "unknown" else CH) ++ "_" ++
        (if TP = "" then "untitled" else TP), hne2, by rw [hdef]⟩,
      ?_, ?_, ?_⟩
    · rw [hdef]
      exact hne5
    · intro hcontra
      simp at hcontra
    · intro s2 hs2
      refine ⟨if CH = "" then "unknown" else CH,
        if TP = "" then "untitled" else TP, hH2, hP2, ?_, ?_, ?_, by rw [hdef]⟩
      · intro hn
        injection hs2 with hss
        rw [← hss] at hn
        rw [hn] at hCH
        have hCHv : CH = "unknown" := by rw [hCH]; decide
        rw [hCHv]
        decide
      · intro hcase
        have hTPv : TP = "untitled" := by
          rcases hcase with hnone | htrim
          · rw [hnone] at hTP
            exact hTP
          · cases ht : t with
            | none =>
              rw [ht] at hTP
              exact hTP
            | some t2 =>
              rw [ht] at hTP
              have hTP2 : TP = if t2 = "" ∨ jsTrimS t2 = "" then "untitled"
                  else sanitizeFilename (some t2) := hTP
              rw [ht] at htrim
              simp only [Option.getD_some] at htrim
              rw [hTP2, if_pos (Or.inr htrim)]
        rw [hTPv]
        decide
      · intro t2 ht2 hsan
        rw [ht2] at hTP
        have hTP2 : TP = if t2 = "" ∨ jsTrimS t2 = "" then "untitled"
            else sanitizeFilename (some t2) := hTP
        by_cases hcond : t2 = "" ∨ jsTrimS t2 = ""
        · rw [if_pos hcond] at hTP2
          rw [hTP2]
          decide
        · rw [if_neg hcond, hsan] at hTP2
          rw [hTP2]
          decide

/-- C10 witness: the non-string-URL fallback at a concrete input. -/
theorem generateFilename_safe_witness :
    generateFilename none none 5 = "cropped_image_" ++ toString 5 ++ ".jpg" :=
  (generateFilename_safe none none 5).2.2.1 rfl
